import Mathlib

/-!
Verification of the useful-links search engine of the campus-guide
repository (`getResults` / `_getResults` in `links.js`, and the
social-media icon helpers in `app/util/DisplayUtils.js`), as a shallow
embedding in Lean 4.

Strings are Lean `String`; JavaScript `toUpperCase`/`toLowerCase` are
modelled by mapping `Char.toUpper`/`Char.toLower` over the characters,
and `s.indexOf(pat) >= 0` by list-infix containment on the characters.
-/

/-- The two languages offered by the application (SplashScreen offers
`'en'` and `'fr'`). -/
inductive Lang where
  | en : Lang
  | fr : Lang
deriving DecidableEq, Repr

/-- Translated names of a record: the `name_en` / `name_fr` fields a
section or link carries, each possibly absent (`null`). -/
structure NameRec where
  en : Option String
  fr : Option String
deriving DecidableEq, Repr

/-- An icon object: a `name` and a `class` (here `cls`) field. -/
structure Icon where
  name : String
  cls : String
deriving DecidableEq, Repr

/-- A single link or social-media entry of a section: a translated name
and an opaque target. -/
structure LinkRecord where
  name : NameRec
  url : String
deriving DecidableEq, Repr

/-- The `data` payload of a search result: the owning section's id for a
category match, or the underlying link record for a link match. -/
inductive RData where
  | sec : String → RData
  | link : LinkRecord → RData
deriving DecidableEq, Repr

/-- One search result, as pushed by `pushLink` and by the category-match
branch of `_getResults`. -/
structure SearchResult where
  description : String
  data : RData
  icon : Icon
  matchedTerms : List String
  title : String
deriving DecidableEq, Repr

/-- The translation table for one language, restricted to the keys the
search engine reads (`external_links`, `useful_links`,
`see_related_links`). -/
structure Translations where
  external_links : String
  useful_links : String
  see_related_links : String
deriving DecidableEq, Repr

/-- A node of the link-section tree: an id, translated names, an icon,
direct links, social entries and nested subcategories.  A section with
absent `links`/`social`/`categories` fields is modelled by empty
lists. -/
inductive LinkSection where
  | mk : String → NameRec → Icon → List LinkRecord → List LinkRecord →
      List LinkSection → LinkSection
deriving Repr

/-- The `id` field of a section. -/
def LinkSection.id : LinkSection → String
  | .mk i _ _ _ _ _ => i

/-- The translated-name fields of a section. -/
def LinkSection.name : LinkSection → NameRec
  | .mk _ n _ _ _ _ => n

/-- The `icon` field of a section. -/
def LinkSection.icon : LinkSection → Icon
  | .mk _ _ ic _ _ _ => ic

/-- The direct `links` entries of a section. -/
def LinkSection.links : LinkSection → List LinkRecord
  | .mk _ _ _ ls _ _ => ls

/-- The `social` entries of a section. -/
def LinkSection.social : LinkSection → List LinkRecord
  | .mk _ _ _ _ so _ => so

/-- The nested subcategories of a section. -/
def LinkSection.categories : LinkSection → List LinkSection
  | .mk _ _ _ _ _ cs => cs

/-- JavaScript `toUpperCase`, character by character (kernel-reducible,
unlike `String.toUpper`, and equal to it on every string). -/
def jsToUpper (s : String) : String :=
  ⟨s.data.map Char.toUpper⟩

/-- JavaScript `toLowerCase`, character by character. -/
def jsToLower (s : String) : String :=
  ⟨s.data.map Char.toLower⟩

/-! ## DisplayUtils (`app/util/DisplayUtils.js`) -/

/-- `getSocialMediaIconName` from `DisplayUtils.js`: a switch on the
lowercased platform name with a generic fallback. -/
def getSocialMediaIconName (socialMedia : String) : String :=
  if jsToLower socialMedia = "linkedin" then "social-linkedin"
  else if jsToLower socialMedia = "twitter" then "social-twitter"
  else if jsToLower socialMedia = "facebook" then "social-facebook"
  else if jsToLower socialMedia = "instagram" then "social-instagram-outline"
  else if jsToLower socialMedia = "youtube" then "social-youtube"
  else if jsToLower socialMedia = "tumblr" then "social-tumblr"
  else "android-open"

/-- `getSocialMediaIconColor` from `DisplayUtils.js`: a switch on the
lowercased platform name with a black fallback. -/
def getSocialMediaIconColor (socialMedia : String) : String :=
  if jsToLower socialMedia = "linkedin" then "#0077B5"
  else if jsToLower socialMedia = "twitter" then "#55ACEE"
  else if jsToLower socialMedia = "facebook" then "#3D509F"
  else if jsToLower socialMedia = "instagram" then "#241F20"
  else if jsToLower socialMedia = "youtube" then "#CD201F"
  else if jsToLower socialMedia = "tumblr" then "#35465C"
  else "#000000"

/-! ## Translation provider (external collaborator) -/

/-- Modelled from the spec: `TranslationUtils.getTranslatedName(language,
record)` (the TranslationProvider is an external collaborator, not under
`src/`); it returns the record's translated name for the language, or
`null`. -/
def getTranslatedName (lang : Lang) (n : NameRec) : Option String :=
  match lang with
  | .en => n.en
  | .fr => n.fr

/-- Modelled from the spec: `TranslationUtils.getEnglishName(record)`
(external collaborator, not under `src/`); it reports the canonical
English name of a record, or `null`. -/
def getEnglishName (n : NameRec) : Option String :=
  n.en

/-- The display name of a section for a language, with a missing
translation degraded to the empty string
(`getTranslatedName(language, section) || ''`). -/
def trSecName (lang : Lang) (s : LinkSection) : String :=
  (getTranslatedName lang s.name).getD ""

/-- The display name of a link record for a language, with a missing
translation degraded to the empty string. -/
def trRecName (lang : Lang) (l : LinkRecord) : String :=
  (getTranslatedName lang l.name).getD ""

/-! ## String containment -/

/-- JavaScript `s.indexOf(pat) >= 0`: `pat` occurs as a contiguous
substring of `s`. -/
def strContains (s pat : String) : Bool :=
  decide (pat.data <:+: s.data)

/-! ## Size measure for the traversal (ignores strings, so rewriting an
id leaves the measure unchanged) -/

mutual

/-- Number of section nodes in a section's subtree. -/
def sectionSize : LinkSection → Nat
  | .mk _ _ _ _ _ cs => 1 + sectionsSize cs

/-- Number of section nodes in a forest. -/
def sectionsSize : List LinkSection → Nat
  | [] => 0
  | s :: rest => sectionSize s + sectionsSize rest

end

/-- The id rewrite `_getResults` performs on a subcategory before
queueing it: `section.categories[j].id = section.id + "-" +
section.categories[j].id`. -/
def withParentId (pid : String) : LinkSection → LinkSection
  | .mk i n ic ls so cs => .mk (pid ++ "-" ++ i) n ic ls so cs

/-- A link-match result as assembled by `pushLink` in `_getResults`. -/
def mkLinkResult (sectionName linkName iconName : String)
    (link : LinkRecord) (matchedSectionName : Bool) : SearchResult :=
  { description := sectionName
    data := .link link
    icon := { name := iconName, cls := "ionicon" }
    matchedTerms :=
      if matchedSectionName then [jsToUpper sectionName, jsToUpper linkName]
      else [jsToUpper linkName]
    title := linkName }

/-- The icon name chosen for a social entry:
`DisplayUtils.getSocialMediaIconName(TranslationUtils.getEnglishName(link) || '')`. -/
def socialIconName (link : LinkRecord) : String :=
  getSocialMediaIconName ((getEnglishName link.name).getD "")

/-- All link-match results a section contributes when its own display
name matched the query: every direct link and social entry, with the
two-term `matchedTerms` (`pushLink` called with
`matchedSectionName = true`). -/
def matchedSectionLinks (lang : Lang) (s : LinkSection) : List SearchResult :=
  s.links.map (fun link =>
    mkLinkResult (trSecName lang s) (trRecName lang link) "md-open" link true)
  ++ s.social.map (fun link =>
    mkLinkResult (trSecName lang s) (trRecName lang link) (socialIconName link) link true)

/-- The link-match results a section contributes when its display name
did not match: only entries whose own uppercased name contains the
query, with the one-term `matchedTerms` (`pushLink` called with
`matchedSectionName = false`). -/
def unmatchedSectionLinks (lang : Lang) (query : String) (s : LinkSection) :
    List SearchResult :=
  (s.links.filter (fun link =>
      strContains (jsToUpper (trRecName lang link)) query)).map (fun link =>
    mkLinkResult (trSecName lang s) (trRecName lang link) "md-open" link false)
  ++ (s.social.filter (fun link =>
      strContains (jsToUpper (trRecName lang link)) query)).map (fun link =>
    mkLinkResult (trSecName lang s) (trRecName lang link) (socialIconName link) link false)

/-- The link-match results one iteration of the `_getResults` loop pushes
onto `links` for the section at hand. -/
def sectionLinkResults (lang : Lang) (query : String) (s : LinkSection) :
    List SearchResult :=
  if strContains (jsToUpper (trSecName lang s)) query then matchedSectionLinks lang s
  else unmatchedSectionLinks lang query s

/-- The category-match results one iteration of the `_getResults` loop
pushes onto `categories` for the section at hand: one result when the
section's display name contains the query, none otherwise. -/
def sectionCatResults (ts : Translations) (lang : Lang) (query : String)
    (s : LinkSection) : List SearchResult :=
  if strContains (jsToUpper (trSecName lang s)) query then
    [{ description := ts.see_related_links
       data := .sec s.id
       icon := s.icon
       matchedTerms := [jsToUpper (trSecName lang s)]
       title := trSecName lang s }]
  else []

/-- The worklist loop of `_getResults`: process each section in order,
pushing its link results and category results, and appending its
subcategories — with ids rewritten to `"{parentId}-{subId}"` — to the
end of the worklist.  Returns the pair `(links, categories)`. -/
def searchAll (ts : Translations) (lang : Lang) (query : String) :
    List LinkSection → List SearchResult × List SearchResult
  | [] => ([], [])
  | s :: rest =>
    let subs := s.categories.map (withParentId s.id)
    let r := searchAll ts lang query (rest ++ subs)
    (sectionLinkResults lang query s ++ r.1,
     sectionCatResults ts lang query s ++ r.2)
termination_by work => sectionsSize work
decreasing_by
  have happ : ∀ xs ys : List LinkSection,
      sectionsSize (xs ++ ys) = sectionsSize xs + sectionsSize ys := by
    intro xs ys
    induction xs with
    | nil => simp [sectionsSize]
    | cons x r ih =>
      simp only [List.cons_append, sectionsSize, List.append_eq]
      rw [ih]
      omega
  have hmap : ∀ (p : String) (cs : List LinkSection),
      sectionsSize (cs.map (withParentId p)) = sectionsSize cs := by
    intro p cs
    induction cs with
    | nil => rfl
    | cons c r ih =>
      cases c
      simp only [List.map_cons, sectionsSize, withParentId, sectionSize]
      rw [ih]
  have hsec : sectionSize s = 1 + sectionsSize s.categories := by
    cases s
    rfl
  rw [happ, hmap]
  simp only [sectionsSize]
  omega

/-- The sections visited by the `_getResults` loop, in visit order: a
section is followed by the remaining worklist and then its subcategories
with rewritten ids. -/
def flattenBFS : List LinkSection → List LinkSection
  | [] => []
  | s :: rest => s :: flattenBFS (rest ++ s.categories.map (withParentId s.id))
termination_by work => sectionsSize work
decreasing_by
  have happ : ∀ xs ys : List LinkSection,
      sectionsSize (xs ++ ys) = sectionsSize xs + sectionsSize ys := by
    intro xs ys
    induction xs with
    | nil => simp [sectionsSize]
    | cons x r ih =>
      simp only [List.cons_append, sectionsSize, List.append_eq]
      rw [ih]
      omega
  have hmap : ∀ (p : String) (cs : List LinkSection),
      sectionsSize (cs.map (withParentId p)) = sectionsSize cs := by
    intro p cs
    induction cs with
    | nil => rfl
    | cons c r ih =>
      cases c
      simp only [List.map_cons, sectionsSize, withParentId, sectionSize]
      rw [ih]
  have hsec : sectionSize s = 1 + sectionsSize s.categories := by
    cases s
    rfl
  rw [happ, hmap]
  simp only [sectionsSize]
  omega

/-- A JavaScript-object-like string-keyed mapping, in insertion order. -/
def Mapping : Type := List (String × List SearchResult)

/-- JavaScript property assignment `m[k] = v`: replace the value if the
key is present, append the pair otherwise. -/
def insertMapping : List (String × List SearchResult) → String →
    List SearchResult → List (String × List SearchResult)
  | [], k, v => [(k, v)]
  | (k', v') :: rest, k, v =>
    if k' = k then (k', v) :: rest else (k', v') :: insertMapping rest k v

/-- JavaScript property read `m[k]`. -/
def lookupMapping : List (String × List SearchResult) → String →
    Option (List SearchResult)
  | [], _ => none
  | (k', v') :: rest, k => if k' = k then some v' else lookupMapping rest k

/-- The result object built at the end of `_getResults`:
`results[Translations.external_links] = links;`
`results[Translations.useful_links] = categories;`. -/
def buildResults (ts : Translations) (links cats : List SearchResult) :
    List (String × List SearchResult) :=
  insertMapping (insertMapping [] ts.external_links links) ts.useful_links cats

/-- The search entry point `getResults(language, searchTerms)`:
a `null` or empty query resolves immediately with the empty object; a
non-empty query is uppercased, the section tree is fetched from the
ConfigurationProvider (`fetch`, whose failure rejects the promise), and
`_getResults` runs the traversal.  `gt` is
`TranslationUtils.getTranslations`. -/
def getResults (gt : Lang → Translations)
    (fetch : Unit → Except String (List LinkSection))
    (lang : Lang) (searchTerms : Option String) :
    Except String (List (String × List SearchResult)) :=
  match searchTerms with
  | none => .ok []
  | some raw =>
    if raw.length = 0 then .ok []
    else
      match fetch () with
      | .error e => .error e
      | .ok secs =>
        let ts := gt lang
        let r := searchAll ts lang (jsToUpper raw) secs
        .ok (buildResults ts r.1 r.2)

/-! ## The in-place id mutation on the shared tree -/

mutual

/-- The final id a visited section carries: its own id prefixed by its
parent's final id, recursively below. -/
def rewriteSec (pid : String) : LinkSection → LinkSection
  | .mk i n ic ls so cs =>
    .mk (pid ++ "-" ++ i) n ic ls so (rewriteSecs (pid ++ "-" ++ i) cs)

/-- `rewriteSec` over a list of subcategories. -/
def rewriteSecs (pid : String) : List LinkSection → List LinkSection
  | [] => []
  | c :: rest => rewriteSec pid c :: rewriteSecs pid rest

end

/-- The state of the section tree after one `_getResults` traversal:
top-level ids are untouched, and every (transitive) subcategory's id has
been rewritten to `"{parentFinalId}-{subId}"` at its visit. -/
def afterSearch (roots : List LinkSection) : List LinkSection :=
  roots.map (fun s =>
    .mk s.id s.name s.icon s.links s.social (rewriteSecs s.id s.categories))

mutual

/-- Erase every id in a section's subtree (used to state that the id
rewrite changes nothing but ids). -/
def eraseIdSec : LinkSection → LinkSection
  | .mk _ n ic ls so cs => .mk "" n ic ls so (eraseIdSecs cs)

/-- `eraseIdSec` over a forest. -/
def eraseIdSecs : List LinkSection → List LinkSection
  | [] => []
  | c :: rest => eraseIdSec c :: eraseIdSecs rest

end

/-! ## Concrete example data -/

/-- A root with one subcategory, exercising the id rewrite. -/
def pairTree : List LinkSection :=
  [.mk "a" ⟨none, none⟩ ⟨"", ""⟩ [] []
    [.mk "b" ⟨none, none⟩ ⟨"", ""⟩ [] [] []]]

/-- A section whose English name matches the query `"HOUS"`, with one
direct link and one social entry. -/
def housingSec : LinkSection :=
  .mk "a" ⟨some "Housing", none⟩ ⟨"link", "material"⟩
    [⟨⟨some "Leases", none⟩, "u1"⟩] [⟨⟨some "Twitter", none⟩, "u2"⟩] []

/-- A section whose English name does not match the query `"WIFI"`, with
one matching and one non-matching link and a non-matching social
entry. -/
def techSec : LinkSection :=
  .mk "a" ⟨some "Housing", none⟩ ⟨"link", "material"⟩
    [⟨⟨some "Wifi Help", none⟩, "u1"⟩, ⟨⟨some "Leases", none⟩, "u2"⟩]
    [⟨⟨some "Twitter", none⟩, "u3"⟩] []

/-- Third-level section of the nesting example. -/
def deadlinesSec : LinkSection :=
  .mk "deadlines" ⟨some "Deadlines", none⟩ ⟨"link", "material"⟩ [] [] []

/-- Second-level section of the nesting example. -/
def academicSec : LinkSection :=
  .mk "academic" ⟨some "Academic", none⟩ ⟨"link", "material"⟩ [] [] [deadlinesSec]

/-- Root section of the nesting example. -/
def eventsSec : LinkSection :=
  .mk "events" ⟨some "Events", none⟩ ⟨"link", "material"⟩ [] [] [academicSec]

/-! ## Size-measure lemmas -/

/-- Rewriting an id does not change the node count. -/
theorem sectionSize_withParentId (pid : String) (s : LinkSection) :
    sectionSize (withParentId pid s) = sectionSize s := by
  cases s
  rfl

/-- Rewriting ids over a forest does not change the node count. -/
theorem sectionsSize_map_withParentId (pid : String) :
    ∀ cs : List LinkSection,
      sectionsSize (cs.map (withParentId pid)) = sectionsSize cs
  | [] => rfl
  | c :: rest => by
    simp only [List.map_cons, sectionsSize, sectionSize_withParentId,
      sectionsSize_map_withParentId pid rest]

/-- `sectionsSize` distributes over append. -/
theorem sectionsSize_append :
    ∀ xs ys : List LinkSection,
      sectionsSize (xs ++ ys) = sectionsSize xs + sectionsSize ys
  | [], _ => by simp [sectionsSize]
  | x :: rest, ys => by
    simp only [List.cons_append, sectionsSize, List.append_eq]
    rw [sectionsSize_append rest ys]
    omega

/-- A section's size is one more than its subcategories' total size. -/
theorem sectionSize_eq (s : LinkSection) :
    sectionSize s = 1 + sectionsSize s.categories := by
  cases s
  rfl

/-! ## Properties of `withParentId` -/

/-- `withParentId` rewrites exactly the id. -/
theorem withParentId_id (pid : String) (c : LinkSection) :
    (withParentId pid c).id = pid ++ "-" ++ c.id := by
  cases c
  rfl

/-- `withParentId` keeps the name. -/
theorem withParentId_name (pid : String) (c : LinkSection) :
    (withParentId pid c).name = c.name := by
  cases c
  rfl

/-- `withParentId` keeps the links. -/
theorem withParentId_links (pid : String) (c : LinkSection) :
    (withParentId pid c).links = c.links := by
  cases c
  rfl

/-- `withParentId` keeps the social entries. -/
theorem withParentId_social (pid : String) (c : LinkSection) :
    (withParentId pid c).social = c.social := by
  cases c
  rfl

/-- `withParentId` keeps the subcategories. -/
theorem withParentId_categories (pid : String) (c : LinkSection) :
    (withParentId pid c).categories = c.categories := by
  cases c
  rfl

/-! ## The worklist loop as a flat map over the visited sections -/

/-- The loop of `_getResults` emits, in visit order, exactly the
per-section link results and per-section category results of the
sections `flattenBFS` lists. -/
theorem searchAll_eq_flatMap (ts : Translations) (lang : Lang) (q : String) :
    ∀ n work, sectionsSize work ≤ n →
      searchAll ts lang q work =
        ((flattenBFS work).flatMap (sectionLinkResults lang q),
         (flattenBFS work).flatMap (sectionCatResults ts lang q))
  | _, [], _ => by simp [searchAll, flattenBFS]
  | 0, s :: rest, h => by
    exfalso
    have hs := sectionSize_eq s
    simp only [sectionsSize] at h
    omega
  | n + 1, s :: rest, h => by
    have hs := sectionSize_eq s
    simp only [sectionsSize] at h
    have hsz : sectionsSize (rest ++ s.categories.map (withParentId s.id)) ≤ n := by
      rw [sectionsSize_append, sectionsSize_map_withParentId]
      omega
    have ih := searchAll_eq_flatMap ts lang q n
      (rest ++ s.categories.map (withParentId s.id)) hsz
    simp [searchAll, flattenBFS, ih]

/-- A section on the worklist is visited. -/
theorem mem_flattenBFS_of_mem :
    ∀ n work (s : LinkSection), sectionsSize work ≤ n → s ∈ work →
      s ∈ flattenBFS work
  | _, [], _, _, hm => by cases hm
  | 0, a :: rest, s, h, _ => by
    exfalso
    have hs := sectionSize_eq a
    simp only [sectionsSize] at h
    omega
  | n + 1, a :: rest, s, h, hm => by
    have hs := sectionSize_eq a
    simp only [sectionsSize] at h
    have hsz : sectionsSize (rest ++ a.categories.map (withParentId a.id)) ≤ n := by
      rw [sectionsSize_append, sectionsSize_map_withParentId]
      omega
    simp only [flattenBFS]
    rcases List.mem_cons.mp hm with rfl | hm'
    · exact List.mem_cons_self _ _
    · exact List.mem_cons_of_mem _
        (mem_flattenBFS_of_mem n _ s hsz (List.mem_append_left _ hm'))

/-- A subcategory of a visited section is itself visited, carrying the
rewritten id `"{parentId}-{subId}"`. -/
theorem child_mem_flattenBFS :
    ∀ n work (s c : LinkSection), sectionsSize work ≤ n →
      s ∈ flattenBFS work → c ∈ s.categories →
      withParentId s.id c ∈ flattenBFS work
  | _, [], s, c, _, hm, _ => by
    simp only [flattenBFS] at hm
    cases hm
  | 0, a :: rest, s, c, h, _, _ => by
    exfalso
    have hs := sectionSize_eq a
    simp only [sectionsSize] at h
    omega
  | n + 1, a :: rest, s, c, h, hm, hc => by
    have hs := sectionSize_eq a
    simp only [sectionsSize] at h
    have hsz : sectionsSize (rest ++ a.categories.map (withParentId a.id)) ≤ n := by
      rw [sectionsSize_append, sectionsSize_map_withParentId]
      omega
    simp only [flattenBFS] at hm ⊢
    rcases List.mem_cons.mp hm with rfl | hm'
    · refine List.mem_cons_of_mem _ (mem_flattenBFS_of_mem n _ _ hsz ?_)
      exact List.mem_append_right _ (List.mem_map_of_mem _ hc)
    · exact List.mem_cons_of_mem _ (child_mem_flattenBFS n _ s c hsz hm' hc)

/-! ## Claim theorems -/

/-- C8: the social-media icon and color helpers are total pure functions
of the platform name; matching is case-insensitive; each of the six
known platforms maps to its fixed icon/color pair; every other string
maps to the fallback icon `android-open` and the fallback color
`#000000`.  (Totality is inherent: both are total Lean functions on
`String`.) -/
theorem c8_social_media_helpers :
    (∀ a b : String, jsToLower a = jsToLower b →
      getSocialMediaIconName a = getSocialMediaIconName b ∧
      getSocialMediaIconColor a = getSocialMediaIconColor b) ∧
    (getSocialMediaIconName "linkedin" = "social-linkedin" ∧
      getSocialMediaIconColor "linkedin" = "#0077B5" ∧
      getSocialMediaIconName "twitter" = "social-twitter" ∧
      getSocialMediaIconColor "twitter" = "#55ACEE" ∧
      getSocialMediaIconName "facebook" = "social-facebook" ∧
      getSocialMediaIconColor "facebook" = "#3D509F" ∧
      getSocialMediaIconName "instagram" = "social-instagram-outline" ∧
      getSocialMediaIconColor "instagram" = "#241F20" ∧
      getSocialMediaIconName "youtube" = "social-youtube" ∧
      getSocialMediaIconColor "youtube" = "#CD201F" ∧
      getSocialMediaIconName "tumblr" = "social-tumblr" ∧
      getSocialMediaIconColor "tumblr" = "#35465C") ∧
    (∀ s : String,
      jsToLower s ∉ (["linkedin", "twitter", "facebook", "instagram",
        "youtube", "tumblr"] : List String) →
      getSocialMediaIconName s = "android-open" ∧
      getSocialMediaIconColor s = "#000000") := by
  refine ⟨fun a b h => ?_, by decide, fun s hs => ?_⟩
  · constructor <;> simp only [getSocialMediaIconName, getSocialMediaIconColor, h]
  · simp only [List.mem_cons, List.not_mem_nil, or_false, not_or] at hs
    obtain ⟨h1, h2, h3, h4, h5, h6⟩ := hs
    constructor <;>
      simp [getSocialMediaIconName, getSocialMediaIconColor, h1, h2, h3, h4, h5, h6]

/-- Witness for C8: case-insensitivity at `"TwItTeR"` versus
`"twitter"`, and the fallback at the unknown platform `"myspace"`. -/
theorem c8_witness :
    (getSocialMediaIconName "TwItTeR" = getSocialMediaIconName "twitter" ∧
      getSocialMediaIconColor "TwItTeR" = getSocialMediaIconColor "twitter") ∧
    (getSocialMediaIconName "myspace" = "android-open" ∧
      getSocialMediaIconColor "myspace" = "#000000") :=
  ⟨c8_social_media_helpers.1 "TwItTeR" "twitter" (by decide),
   c8_social_media_helpers.2.2 "myspace" (by decide)⟩

/-- C10: the icon helper falls back to `android-open` exactly when the
color helper falls back to `#000000` — the two switches recognize the
same platform names. -/
theorem c10_same_fallback_domain (s : String) :
    getSocialMediaIconName s = "android-open" ↔
      getSocialMediaIconColor s = "#000000" := by
  unfold getSocialMediaIconName getSocialMediaIconColor
  split_ifs <;> decide

/-- C9: the result object assigns `links` under the translated
external-links label first, then `categories` under the translated
useful-links label; equal labels make the second assignment overwrite
the first, leaving a single key bound to the categories list. -/
theorem c9_label_collision (ts : Translations) (ls cs : List SearchResult) :
    (ts.external_links ≠ ts.useful_links →
      buildResults ts ls cs =
        [(ts.external_links, ls), (ts.useful_links, cs)]) ∧
    (ts.external_links = ts.useful_links →
      buildResults ts ls cs = [(ts.useful_links, cs)]) := by
  constructor <;> intro h <;> simp [buildResults, insertMapping, h]

/-- Witness for C9: distinct labels keep both lists; colliding labels
keep only the categories list. -/
theorem c9_witness :
    buildResults ⟨"A", "B", "R"⟩ [] [] = [("A", []), ("B", [])] ∧
    buildResults ⟨"L", "L", "R"⟩ [] [] = [("L", [])] :=
  ⟨(c9_label_collision ⟨"A", "B", "R"⟩ [] []).1 (by decide),
   (c9_label_collision ⟨"L", "L", "R"⟩ [] []).2 rfl⟩

/-- C3 as stated is false on the code: on a `null` query the search
resolves with the empty object `{}` — the two translated label keys are
absent, not mapped to empty lists. -/
theorem c3_counterexample :
    ¬ (∃ m, getResults (fun _ => ⟨"EXT", "USE", "REL"⟩)
        (fun _ => .ok []) .en none = .ok m ∧
        lookupMapping m "EXT" = some [] ∧
        lookupMapping m "USE" = some []) := by
  rintro ⟨m, hm, h1, -⟩
  simp only [getResults, Except.ok.injEq] at hm
  subst hm
  simp [lookupMapping] at h1

/-- C3 (amended): for every language, a `null` or empty query resolves
with the empty mapping — no keys at all — and the ConfigurationProvider
is never invoked (the result is independent of the fetch function). -/
theorem c3_empty_query (gt : Lang → Translations)
    (f g : Unit → Except String (List LinkSection)) (lang : Lang)
    (q : Option String) (h : q = none ∨ q = some "") :
    getResults gt f lang q = .ok [] ∧
    getResults gt f lang q = getResults gt g lang q := by
  rcases h with rfl | rfl <;> simp [getResults]

/-- Witness for the amended C3 at a concrete provider pair, one of which
fails: the `null` query never reaches either. -/
theorem c3_witness :
    getResults (fun _ => ⟨"EXT", "USE", "REL"⟩) (fun _ => .ok [])
        .en none = .ok [] ∧
    getResults (fun _ => ⟨"EXT", "USE", "REL"⟩) (fun _ => .ok [])
        .en none =
      getResults (fun _ => ⟨"EXT", "USE", "REL"⟩)
        (fun _ => .error "offline") .en none :=
  c3_empty_query (fun _ => ⟨"EXT", "USE", "REL"⟩) (fun _ => .ok [])
    (fun _ => .error "offline") .en none (Or.inl rfl)

/-- C6: for a non-empty query, a failed section-tree fetch rejects the
search with the propagated error and no mapping; a successful fetch
always resolves with the complete mapping produced by the (total)
traversal — all-or-nothing. -/
theorem c6_error_propagation (gt : Lang → Translations)
    (fetch : Unit → Except String (List LinkSection)) (lang : Lang)
    (raw : String) (hraw : raw.length ≠ 0) :
    (∀ e, fetch () = .error e →
      getResults gt fetch lang (some raw) = .error e) ∧
    (∀ secs, fetch () = .ok secs →
      getResults gt fetch lang (some raw) =
        .ok (buildResults (gt lang)
          (searchAll (gt lang) lang (jsToUpper raw) secs).1
          (searchAll (gt lang) lang (jsToUpper raw) secs).2)) := by
  constructor <;> intro x hx <;> simp [getResults, hraw, hx]

/-- Witness for C6: a failing provider rejects with its error; a
successful provider resolves with the full mapping. -/
theorem c6_witness :
    getResults (fun _ => ⟨"EXT", "USE", "REL"⟩)
        (fun _ => .error "netfail") .en (some "a") = .error "netfail" ∧
    getResults (fun _ => ⟨"EXT", "USE", "REL"⟩) (fun _ => .ok [])
        .en (some "a") =
      .ok (buildResults ⟨"EXT", "USE", "REL"⟩
        (searchAll ⟨"EXT", "USE", "REL"⟩ .en (jsToUpper "a") []).1
        (searchAll ⟨"EXT", "USE", "REL"⟩ .en (jsToUpper "a") []).2) :=
  ⟨(c6_error_propagation (fun _ => ⟨"EXT", "USE", "REL"⟩)
      (fun _ => .error "netfail") .en "a" (by decide)).1 "netfail" rfl,
   (c6_error_propagation (fun _ => ⟨"EXT", "USE", "REL"⟩)
      (fun _ => .ok []) .en "a" (by decide)).2 [] rfl⟩

/-- Every result the traversal emits, in either list, carries a matched
term that contains the (already uppercased) query, and every matched
term is the uppercasing of some name. -/
theorem searchAll_matchedTerms (ts : Translations) (lang : Lang) (q : String) :
    ∀ n work, sectionsSize work ≤ n → ∀ r : SearchResult,
      (r ∈ (searchAll ts lang q work).1 ∨ r ∈ (searchAll ts lang q work).2) →
      ∃ t ∈ r.matchedTerms, strContains t q = true ∧ ∃ b, t = jsToUpper b
  | _, [], _, r, hr => by simp [searchAll] at hr
  | 0, s :: rest, h, r, hr => by
    exfalso
    have hs := sectionSize_eq s
    simp only [sectionsSize] at h
    omega
  | n + 1, s :: rest, h, r, hr => by
    have hs := sectionSize_eq s
    simp only [sectionsSize] at h
    have hsz : sectionsSize (rest ++ s.categories.map (withParentId s.id)) ≤ n := by
      rw [sectionsSize_append, sectionsSize_map_withParentId]
      omega
    simp only [searchAll, List.mem_append] at hr
    rcases hr with (hr | hr) | (hr | hr)
    · unfold sectionLinkResults at hr
      rcases hcond : strContains (jsToUpper (trSecName lang s)) q with _ | _
      · rw [hcond] at hr
        simp only [Bool.false_eq_true, if_false] at hr
        unfold unmatchedSectionLinks at hr
        simp only [List.mem_append, List.mem_map, List.mem_filter] at hr
        rcases hr with ⟨link, ⟨-, hl⟩, rfl⟩ | ⟨link, ⟨-, hl⟩, rfl⟩ <;>
          exact ⟨jsToUpper (trRecName lang link), by simp [mkLinkResult], hl,
            trRecName lang link, rfl⟩
      · rw [hcond] at hr
        simp only [if_true] at hr
        unfold matchedSectionLinks at hr
        simp only [List.mem_append, List.mem_map] at hr
        rcases hr with ⟨link, -, rfl⟩ | ⟨link, -, rfl⟩ <;>
          exact ⟨jsToUpper (trSecName lang s), by simp [mkLinkResult], hcond,
            trSecName lang s, rfl⟩
    · exact searchAll_matchedTerms ts lang q n _ hsz r (Or.inl hr)
    · unfold sectionCatResults at hr
      rcases hcond : strContains (jsToUpper (trSecName lang s)) q with _ | _
      · rw [hcond] at hr
        simp only [Bool.false_eq_true, if_false] at hr
        cases hr
      · rw [hcond] at hr
        simp only [if_true, List.mem_singleton] at hr
        subst hr
        exact ⟨jsToUpper (trSecName lang s), by simp, hcond, trSecName lang s, rfl⟩
    · exact searchAll_matchedTerms ts lang q n _ hsz r (Or.inr hr)

/-- A list looked up in the result object is the `links` list or the
`categories` list. -/
theorem lookup_buildResults (ts : Translations) (ls cs : List SearchResult)
    (label : String) (list : List SearchResult)
    (h : lookupMapping (buildResults ts ls cs) label = some list) :
    list = ls ∨ list = cs := by
  simp only [buildResults, insertMapping, lookupMapping] at h
  split_ifs at h <;> simp only [lookupMapping] at h <;> split_ifs at h <;>
    simp_all

/-- C5: every emitted search result, in either output list, has a
matched term (itself an uppercased name) of which the uppercased query
is a substring. -/
theorem c5_matched_terms (gt : Lang → Translations)
    (fetch : Unit → Except String (List LinkSection)) (lang : Lang)
    (raw : String) (m : List (String × List SearchResult))
    (hraw : raw.length ≠ 0)
    (hm : getResults gt fetch lang (some raw) = .ok m)
    (label : String) (list : List SearchResult) (r : SearchResult)
    (hl : lookupMapping m label = some list) (hr : r ∈ list) :
    ∃ t ∈ r.matchedTerms, strContains t (jsToUpper raw) = true ∧
      ∃ b, t = jsToUpper b := by
  simp only [getResults] at hm
  rw [if_neg hraw] at hm
  cases hf : fetch () with
  | error e =>
    rw [hf] at hm
    cases hm
  | ok secs =>
    rw [hf] at hm
    simp only [Except.ok.injEq] at hm
    subst hm
    rcases lookup_buildResults _ _ _ _ _ hl with rfl | rfl
    · exact searchAll_matchedTerms (gt lang) lang (jsToUpper raw)
        (sectionsSize secs) secs le_rfl r (Or.inl hr)
    · exact searchAll_matchedTerms (gt lang) lang (jsToUpper raw)
        (sectionsSize secs) secs le_rfl r (Or.inr hr)

/-- C1: a section whose translated display name (uppercased) contains
the uppercased query contributes, as one contiguous block of the `links`
output, exactly one result per direct link and social entry — no
filtering on the entries' own names — and each such result's
`matchedTerms` is the two-element list of uppercased section name
followed by uppercased link name. -/
theorem c1_matching_section (ts : Translations) (lang : Lang) (q : String)
    (work : List LinkSection) (s : LinkSection)
    (hs : s ∈ flattenBFS work)
    (hm : strContains (jsToUpper (trSecName lang s)) q = true) :
    ∃ pre post,
      (searchAll ts lang q work).1 =
        pre ++ matchedSectionLinks lang s ++ post ∧
      matchedSectionLinks lang s =
        s.links.map (fun link =>
          mkLinkResult (trSecName lang s) (trRecName lang link) "md-open" link true)
        ++ s.social.map (fun link =>
          mkLinkResult (trSecName lang s) (trRecName lang link)
            (socialIconName link) link true) ∧
      ∀ r ∈ matchedSectionLinks lang s,
        r.matchedTerms = [jsToUpper (trSecName lang s), jsToUpper r.title] ∧
        r.matchedTerms.length = 2 := by
  obtain ⟨l1, l2, hsplit⟩ := List.append_of_mem hs
  have hchar := searchAll_eq_flatMap ts lang q (sectionsSize work) work le_rfl
  refine ⟨l1.flatMap (sectionLinkResults lang q),
    l2.flatMap (sectionLinkResults lang q), ?_, rfl, ?_⟩
  · rw [hchar, hsplit]
    simp only [List.flatMap_append, List.flatMap_cons, List.append_assoc]
    rw [sectionLinkResults, if_pos hm]
  · intro r hr
    unfold matchedSectionLinks at hr
    simp only [List.mem_append, List.mem_map] at hr
    rcases hr with ⟨link, -, rfl⟩ | ⟨link, -, rfl⟩ <;> simp [mkLinkResult]

/-- C2: a section whose translated display name does not contain the
query contributes no category-match result, and contributes a direct
link or social entry to the `links` output exactly when the entry's own
uppercased display name contains the query, each such result carrying
the one-element `matchedTerms` of the uppercased link name. -/
theorem c2_nonmatching_section (ts : Translations) (lang : Lang) (q : String)
    (work : List LinkSection) (s : LinkSection)
    (hs : s ∈ flattenBFS work)
    (hm : strContains (jsToUpper (trSecName lang s)) q = false) :
    (searchAll ts lang q work).2 =
      (flattenBFS work).flatMap (sectionCatResults ts lang q) ∧
    sectionCatResults ts lang q s = [] ∧
    ∃ pre post,
      (searchAll ts lang q work).1 =
        pre ++ unmatchedSectionLinks lang q s ++ post ∧
      unmatchedSectionLinks lang q s =
        (s.links.filter (fun link =>
            strContains (jsToUpper (trRecName lang link)) q)).map (fun link =>
          mkLinkResult (trSecName lang s) (trRecName lang link) "md-open" link false)
        ++ (s.social.filter (fun link =>
            strContains (jsToUpper (trRecName lang link)) q)).map (fun link =>
          mkLinkResult (trSecName lang s) (trRecName lang link)
            (socialIconName link) link false) ∧
      ∀ r ∈ unmatchedSectionLinks lang q s,
        r.matchedTerms = [jsToUpper r.title] ∧ r.matchedTerms.length = 1 := by
  have hchar := searchAll_eq_flatMap ts lang q (sectionsSize work) work le_rfl
  obtain ⟨l1, l2, hsplit⟩ := List.append_of_mem hs
  refine ⟨by rw [hchar], by rw [sectionCatResults, if_neg]; simp [hm],
    l1.flatMap (sectionLinkResults lang q),
    l2.flatMap (sectionLinkResults lang q), ?_, rfl, ?_⟩
  · rw [hchar, hsplit]
    simp only [List.flatMap_append, List.flatMap_cons, List.append_assoc]
    rw [sectionLinkResults, if_neg]
    simp [hm]
  · intro r hr
    unfold unmatchedSectionLinks at hr
    simp only [List.mem_append, List.mem_map, List.mem_filter] at hr
    rcases hr with ⟨link, -, rfl⟩ | ⟨link, -, rfl⟩ <;> simp [mkLinkResult]

/-- C4: every nested subcategory is visited (its parent appends it, id
rewritten, to the end of the worklist), and a matching third-level
subcategory yields a category result whose section id is the dash-joined
chain of ancestor ids. -/
theorem c4_nested_id_chain (ts : Translations) (lang : Lang) (q : String)
    (work : List LinkSection) (root mid leaf : LinkSection)
    (h1 : root ∈ work) (h2 : mid ∈ root.categories) (h3 : leaf ∈ mid.categories)
    (hm : strContains (jsToUpper (trSecName lang leaf)) q = true) :
    ∃ r ∈ (searchAll ts lang q work).2,
      r.data = .sec ((root.id ++ "-" ++ mid.id) ++ "-" ++ leaf.id) ∧
      r.title = trSecName lang leaf := by
  have hroot : root ∈ flattenBFS work :=
    mem_flattenBFS_of_mem (sectionsSize work) work root le_rfl h1
  have hmid : withParentId root.id mid ∈ flattenBFS work :=
    child_mem_flattenBFS (sectionsSize work) work root mid le_rfl hroot h2
  have h3' : leaf ∈ (withParentId root.id mid).categories := by
    rw [withParentId_categories]
    exact h3
  have hleaf : withParentId (withParentId root.id mid).id leaf ∈ flattenBFS work :=
    child_mem_flattenBFS (sectionsSize work) work _ leaf le_rfl hmid h3'
  have hname : trSecName lang (withParentId (withParentId root.id mid).id leaf) =
      trSecName lang leaf := by
    rw [trSecName, withParentId_name, trSecName]
  have hm' : strContains
      (jsToUpper (trSecName lang (withParentId (withParentId root.id mid).id leaf)))
      q = true := by
    rw [hname]
    exact hm
  have hcat : sectionCatResults ts lang q
      (withParentId (withParentId root.id mid).id leaf) =
      [⟨ts.see_related_links,
        .sec (withParentId (withParentId root.id mid).id leaf).id,
        (withParentId (withParentId root.id mid).id leaf).icon,
        [jsToUpper (trSecName lang (withParentId (withParentId root.id mid).id leaf))],
        trSecName lang (withParentId (withParentId root.id mid).id leaf)⟩] := by
    rw [sectionCatResults, if_pos hm']
  have hchar := searchAll_eq_flatMap ts lang q (sectionsSize work) work le_rfl
  rw [hchar]
  refine ⟨⟨ts.see_related_links,
    .sec (withParentId (withParentId root.id mid).id leaf).id,
    (withParentId (withParentId root.id mid).id leaf).icon,
    [jsToUpper (trSecName lang (withParentId (withParentId root.id mid).id leaf))],
    trSecName lang (withParentId (withParentId root.id mid).id leaf)⟩,
    List.mem_flatMap.mpr ⟨withParentId (withParentId root.id mid).id leaf, hleaf, ?_⟩,
    ?_, ?_⟩
  · rw [hcat]
    exact List.mem_singleton.mpr rfl
  · show RData.sec (withParentId (withParentId root.id mid).id leaf).id = _
    rw [withParentId_id, withParentId_id]
  · exact hname

/-- Erasing ids commutes over the id rewrite: the rewrite changes
nothing but ids. -/
theorem eraseIdSecs_rewriteSecs :
    ∀ n (pid : String) (cs : List LinkSection), sectionsSize cs ≤ n →
      eraseIdSecs (rewriteSecs pid cs) = eraseIdSecs cs
  | _, _, [], _ => rfl
  | 0, _, c :: rest, h => by
    exfalso
    have hs := sectionSize_eq c
    simp only [sectionsSize] at h
    omega
  | n + 1, pid, c :: rest, h => by
    cases c with
    | mk i nm ic ls so cs' =>
      simp only [sectionsSize, sectionSize] at h
      simp only [rewriteSecs, rewriteSec, eraseIdSecs, eraseIdSec]
      rw [eraseIdSecs_rewriteSecs n _ cs' (by omega),
        eraseIdSecs_rewriteSecs n pid rest (by omega)]

/-- The rewritten subcategory ids are the dash-joins with the parent
id. -/
theorem rewriteSecs_map_id (pid : String) :
    ∀ cs : List LinkSection,
      (rewriteSecs pid cs).map LinkSection.id =
        cs.map (fun c => pid ++ "-" ++ c.id)
  | [] => rfl
  | c :: rest => by
    cases c
    simp only [rewriteSecs, rewriteSec, List.map_cons, LinkSection.id,
      rewriteSecs_map_id pid rest]

/-- Erasing ids on a root processed by `afterSearch` gives the same
node as erasing ids on the original root. -/
theorem eraseIdSec_afterSearchRoot (s : LinkSection) :
    eraseIdSec (LinkSection.mk s.id s.name s.icon s.links s.social
      (rewriteSecs s.id s.categories)) = eraseIdSec s := by
  cases s with
  | mk i nm ic ls so cs =>
    simp only [LinkSection.id, LinkSection.name, LinkSection.icon,
      LinkSection.links, LinkSection.social, LinkSection.categories, eraseIdSec]
    rw [eraseIdSecs_rewriteSecs (sectionsSize cs) i cs le_rfl]

/-- C7: the only mutation a search performs on the input tree is the id
rewrite — erasing ids gives back the original forest, top-level ids are
untouched, each subcategory id becomes `"{parentId}-{subId}"` — and the
rewrite is not idempotent: a second search prefixes the ids a second
time (`"a-b"` becomes `"a-a-b"`). -/
theorem c7_id_mutation :
    (∀ t, eraseIdSecs (afterSearch t) = eraseIdSecs t) ∧
    (∀ t, (afterSearch t).map LinkSection.id = t.map LinkSection.id) ∧
    (∀ t, (afterSearch t).map (fun s => s.categories.map LinkSection.id) =
      t.map (fun s => s.categories.map (fun c => s.id ++ "-" ++ c.id))) ∧
    ((afterSearch pairTree).map (fun s => s.categories.map LinkSection.id) =
        [["a-b"]] ∧
      (afterSearch (afterSearch pairTree)).map
        (fun s => s.categories.map LinkSection.id) = [["a-a-b"]]) ∧
    afterSearch (afterSearch pairTree) ≠ afterSearch pairTree := by
  refine ⟨?_, ?_, ?_, ⟨rfl, rfl⟩, ?_⟩
  · intro t
    induction t with
    | nil => rfl
    | cons s rest ih =>
      simp only [afterSearch, List.map_cons, eraseIdSecs]
      simp only [afterSearch] at ih
      rw [eraseIdSec_afterSearchRoot s, ih]
  · intro t
    induction t with
    | nil => rfl
    | cons s rest ih =>
      simp only [afterSearch, List.map_cons]
      simp only [afterSearch] at ih
      rw [ih]
      exact congrArg₂ List.cons rfl rfl
  · intro t
    induction t with
    | nil => rfl
    | cons s rest ih =>
      simp only [afterSearch, List.map_cons]
      simp only [afterSearch] at ih
      rw [ih,
        show LinkSection.categories (LinkSection.mk s.id s.name s.icon s.links
          s.social (rewriteSecs s.id s.categories)) =
          rewriteSecs s.id s.categories from rfl,
        rewriteSecs_map_id]
  · intro h
    exact absurd
      (congrArg (List.map (fun s => s.categories.map LinkSection.id)) h)
      (by decide)

/-- Witness for C1 at a concrete matching section with one link and one
social entry, query `"HOUS"`. -/
theorem c1_witness :
    ∃ pre post,
      (searchAll ⟨"EXT", "USE", "REL"⟩ .en "HOUS" [housingSec]).1 =
        pre ++ matchedSectionLinks .en housingSec ++ post ∧
      matchedSectionLinks .en housingSec =
        housingSec.links.map (fun link =>
          mkLinkResult (trSecName .en housingSec) (trRecName .en link)
            "md-open" link true)
        ++ housingSec.social.map (fun link =>
          mkLinkResult (trSecName .en housingSec) (trRecName .en link)
            (socialIconName link) link true) ∧
      ∀ r ∈ matchedSectionLinks .en housingSec,
        r.matchedTerms =
          [jsToUpper (trSecName .en housingSec), jsToUpper r.title] ∧
        r.matchedTerms.length = 2 :=
  c1_matching_section ⟨"EXT", "USE", "REL"⟩ .en "HOUS" [housingSec] housingSec
    (by simp [flattenBFS]) (by decide)

/-- Witness for C2 at a concrete non-matching section, query `"WIFI"`:
only the `"Wifi Help"` link survives the filter. -/
theorem c2_witness :
    (searchAll ⟨"EXT", "USE", "REL"⟩ .en "WIFI" [techSec]).2 =
      (flattenBFS [techSec]).flatMap
        (sectionCatResults ⟨"EXT", "USE", "REL"⟩ .en "WIFI") ∧
    sectionCatResults ⟨"EXT", "USE", "REL"⟩ .en "WIFI" techSec = [] ∧
    ∃ pre post,
      (searchAll ⟨"EXT", "USE", "REL"⟩ .en "WIFI" [techSec]).1 =
        pre ++ unmatchedSectionLinks .en "WIFI" techSec ++ post ∧
      unmatchedSectionLinks .en "WIFI" techSec =
        (techSec.links.filter (fun link =>
            strContains (jsToUpper (trRecName .en link)) "WIFI")).map (fun link =>
          mkLinkResult (trSecName .en techSec) (trRecName .en link)
            "md-open" link false)
        ++ (techSec.social.filter (fun link =>
            strContains (jsToUpper (trRecName .en link)) "WIFI")).map (fun link =>
          mkLinkResult (trSecName .en techSec) (trRecName .en link)
            (socialIconName link) link false) ∧
      ∀ r ∈ unmatchedSectionLinks .en "WIFI" techSec,
        r.matchedTerms = [jsToUpper r.title] ∧ r.matchedTerms.length = 1 :=
  c2_nonmatching_section ⟨"EXT", "USE", "REL"⟩ .en "WIFI" [techSec] techSec
    (by simp [flattenBFS]) (by decide)

/-- Witness for C4 at a concrete three-level tree: the match inside the
third level is emitted with id `"events-academic-deadlines"`. -/
theorem c4_witness :
    ∃ r ∈ (searchAll ⟨"EXT", "USE", "REL"⟩ .en "DEADLINE" [eventsSec]).2,
      r.data = .sec ((eventsSec.id ++ "-" ++ academicSec.id) ++ "-" ++
        deadlinesSec.id) ∧
      r.title = trSecName .en deadlinesSec :=
  c4_nested_id_chain ⟨"EXT", "USE", "REL"⟩ .en "DEADLINE" [eventsSec]
    eventsSec academicSec deadlinesSec
    (by simp) (by simp [eventsSec, LinkSection.categories])
    (by simp [academicSec, LinkSection.categories]) (by decide)

/-- Witness for C5 at a concrete one-section tree and query `"hous"`:
the emitted category result's matched term `"HOUSING"` contains the
uppercased query. -/
theorem c5_witness :
    ∃ t ∈ (SearchResult.mk "REL" (.sec "a") ⟨"link", "material"⟩
        ["HOUSING"] "Housing").matchedTerms,
      strContains t (jsToUpper "hous") = true ∧ ∃ b, t = jsToUpper b :=
  c5_matched_terms (fun _ => ⟨"EXT", "USE", "REL"⟩)
    (fun _ => .ok [LinkSection.mk "a" ⟨some "Housing", none⟩
      ⟨"link", "material"⟩ [] [] []])
    .en "hous"
    [("EXT", []), ("USE", [SearchResult.mk "REL" (.sec "a")
      ⟨"link", "material"⟩ ["HOUSING"] "Housing"])]
    (by decide)
    (by
      simp [getResults, searchAll, sectionLinkResults, sectionCatResults,
        matchedSectionLinks, unmatchedSectionLinks, buildResults, insertMapping,
        trSecName, trRecName, getTranslatedName, LinkSection.name,
        LinkSection.id, LinkSection.icon, LinkSection.links,
        LinkSection.social, LinkSection.categories, jsToUpper, jsToLower,
        strContains]
      rw [if_neg (by decide : ¬("hous".length = 0)), if_pos (by decide)])
    "USE"
    [SearchResult.mk "REL" (.sec "a") ⟨"link", "material"⟩ ["HOUSING"] "Housing"]
    (SearchResult.mk "REL" (.sec "a") ⟨"link", "material"⟩ ["HOUSING"] "Housing")
    (by decide) (by simp)
